import Mathlib

/-!
Verification development for the knowledge-graph construction engine of
`src/core/rag_engine.py` (class `VaultRAG`).

The Python code is shallowly embedded as executable Lean definitions:

* RDF nodes become the inductive `RNode`; the in-memory `rdflib.Graph` becomes
  a duplicate-free `List Triple` (`Store`), with `Store.addT` modelling
  `Graph.add` (set semantics; iteration order of `rdflib`'s in-memory store is
  modelled as first-insertion order, which is what CPython's insertion-ordered
  dictionaries give within one process).
* Python `str` operations are modelled on `List Char` / `String`
  (`str.strip`, `str.split`, `str.split('\n\n')`, slicing). Python's `\w` and
  `\s` regex classes are modelled at ASCII scope via `Char.isAlphanum`/`_` and
  `Char.isWhitespace`.
* The float token estimate `len(para.split()) * 1.3` is modelled exactly in
  scaled integers (tenths): cost `13 * wordCount` against budget
  `10 * chunk_size`.  None of the verified properties depends on float
  rounding at the budget boundary.
-/

namespace RagEngine

/-- RDF nodes as used by `VaultRAG`: URIs in the `sources`/`ontology`
namespaces, external-vocabulary URIs, and literals (string or integer,
matching `rdflib.Literal(str)` vs `Literal(int)`). -/
inductive RNode where
  | ns (s : String)
  | onto (s : String)
  | ext (s : String)
  | lit (s : String)
  | litNat (n : Nat)
deriving DecidableEq, Repr

/-- `RDF.type` -/
def rdfType : RNode := .ext "http://www.w3.org/1999/02/22-rdf-syntax-ns#type"
/-- `RDFS.label` -/
def rdfsLabel : RNode := .ext "http://www.w3.org/2000/01/rdf-schema#label"
/-- `RDFS.comment` -/
def rdfsComment : RNode := .ext "http://www.w3.org/2000/01/rdf-schema#comment"
/-- `SKOS.prefLabel` -/
def skosPrefLabel : RNode := .ext "http://www.w3.org/2004/02/skos/core#prefLabel"
/-- `SKOS.definition` -/
def skosDefinition : RNode := .ext "http://www.w3.org/2004/02/skos/core#definition"
/-- `DCTERMS.title` -/
def dctTitle : RNode := .ext "http://purl.org/dc/terms/title"
/-- `DCTERMS.creator` -/
def dctCreator : RNode := .ext "http://purl.org/dc/terms/creator"
/-- `DCTERMS.created` -/
def dctCreated : RNode := .ext "http://purl.org/dc/terms/created"

/-- `str()` of a node, as `rdflib` renders it (URIs print their full IRI,
literals their lexical form). -/
def RNode.str : RNode → String
  | .ns s => "http://pkm.local/sources/" ++ s
  | .onto s => "http://pkm.local/ontology/" ++ s
  | .ext s => s
  | .lit s => s
  | .litNat n => toString n

/-- An RDF triple (subject, predicate, object). -/
abbrev Triple := RNode × RNode × RNode

/-- The in-memory triple store: a duplicate-free list in insertion order. -/
abbrev Store := List Triple

/-- `Graph.add`: set semantics — re-adding an existing triple is a no-op;
a new triple is appended (insertion order models iteration order). -/
def Store.addT (s : Store) (t : Triple) : Store :=
  if t ∈ s then s else s ++ [t]

/-- `graph.objects(subj, pred)` in store iteration order. -/
def objectsOf (s : Store) (subj pred : RNode) : List RNode :=
  s.filterMap (fun t => if t.1 = subj ∧ t.2.1 = pred then some t.2.2 else none)

/-- `graph.subjects(pred, obj)` in store iteration order. -/
def subjectsOf (s : Store) (pred obj : RNode) : List RNode :=
  s.filterMap (fun t => if t.2.1 = pred ∧ t.2.2 = obj then some t.1 else none)

/-- Number of occurrences of a triple in the store. -/
def countOcc (s : Store) (t : Triple) : Nat :=
  (s.filter (fun x => decide (x = t))).length

/-! ## Python string primitives -/

/-- Python's `\w` at ASCII scope: alphanumeric or underscore. -/
def isWordChar (c : Char) : Bool := c.isAlphanum || c == '_'

/-- Remove leading and trailing whitespace (`str.strip()`). -/
def stripChars (l : List Char) : List Char :=
  ((l.dropWhile Char.isWhitespace).reverse.dropWhile Char.isWhitespace).reverse

/-- `str.strip()` on strings. -/
def pyStrip (s : String) : String := ⟨stripChars s.data⟩

/-- Left-to-right split at a non-empty separator (`str.split(sep)`),
accumulating the current piece; structurally recursive so it evaluates in
the kernel. -/
def charSplitF (sep : List Char) : Nat → List Char → List Char → List (List Char)
  | 0, acc, l => [acc.reverse ++ l]
  | fuel + 1, acc, l =>
    match l with
    | [] => [acc.reverse]
    | c :: rest =>
      if sep.isPrefixOf (c :: rest) then
        acc.reverse :: charSplitF sep fuel [] ((c :: rest).drop sep.length)
      else charSplitF sep fuel (c :: acc) rest

/-- Split of a whole character list (each step of the scan consumes at least
one character for a non-empty separator, so `l.length` fuel suffices). -/
def charSplit (sep l : List Char) : List (List Char) := charSplitF sep l.length [] l

/-- Python `s.split(sep)` for a non-empty separator. -/
def pySplit (s sep : String) : List String :=
  (charSplit sep.data s.data).map (⟨·⟩)

/-- Python `s.startswith(pre)`. -/
def pyStartsWith (s pre : String) : Bool := pre.data.isPrefixOf s.data

/-- Python `s.replace(pat, rep)` for a non-empty pattern: replace every
non-overlapping leftmost occurrence. -/
def pyReplace (s pat rep : String) : String :=
  ⟨((charSplit pat.data s.data).intersperse rep.data).flatten⟩

/-- Python `s.lower()` at ASCII scope. -/
def pyToLower (s : String) : String := ⟨s.data.map Char.toLower⟩

/-- Maximal runs of non-whitespace characters: the pieces `str.split()`
(no argument) returns.  The accumulator holds the current word reversed. -/
def wordRunsAux (acc : List Char) : List Char → List (List Char)
  | [] => if acc.isEmpty then [] else [acc.reverse]
  | c :: rest =>
    if c.isWhitespace then
      if acc.isEmpty then wordRunsAux [] rest
      else acc.reverse :: wordRunsAux [] rest
    else wordRunsAux (c :: acc) rest

/-- The word runs of a character list. -/
def wordRuns (l : List Char) : List (List Char) := wordRunsAux [] l

/-- `len(s.split())`: the number of whitespace-separated words. -/
def wordCount (s : String) : Nat := (wordRuns s.data).length

/-- `s.split()` as strings. -/
def pyWords (s : String) : List String := (wordRuns s.data).map (⟨·⟩)

/-! ## `VaultRAG._sanitize_uri` -/

/-- The character class kept by `re.sub(r'[^\w\s-]', '', text)`:
word characters, whitespace, and the hyphen. -/
def keptBySanitize (c : Char) : Bool := isWordChar c || c.isWhitespace || c == '-'

/-- `re.sub(r'[\s]+', '_', l)`: replace every maximal whitespace run by a
single underscore.  The flag records whether the scan is inside a
whitespace run. -/
def collapseWsAux (inRun : Bool) : List Char → List Char
  | [] => []
  | c :: rest =>
    if c.isWhitespace then
      if inRun then collapseWsAux true rest
      else '_' :: collapseWsAux true rest
    else c :: collapseWsAux false rest

/-- Whitespace-run replacement over a whole character list. -/
def collapseWs (l : List Char) : List Char := collapseWsAux false l

/-- `VaultRAG._sanitize_uri`: strip characters outside `[\w\s-]`, then
replace each whitespace run with an underscore. -/
def sanitizeUri (s : String) : String :=
  ⟨collapseWs (s.data.filter keptBySanitize)⟩

/-- The sanitization the spec describes (`spec.md` §3, "non-word characters
stripped, whitespace → underscore"): drop every character that is neither a
word character nor whitespace, then replace each whitespace run with an
underscore.  Kept separate from `sanitizeUri` (the code's behaviour) for
comparison. -/
def sanitizeSpec (s : String) : String :=
  ⟨collapseWs (s.data.filter (fun c => isWordChar c || c.isWhitespace))⟩

/-! ## The `Document` model -/

/-- A document as handed to the graph builder: relative `path` and raw
`content` (`Document.__init__`; loading from disk is out of scope). -/
structure Document where
  path : String
  content : String
deriving DecidableEq, Repr

/-- Last path segment: `path.split('/')[-1]`. -/
def lastSegment (p : String) : String := ((pySplit p "/").getLast?).getD p

/-- `Document._extract_title`: the first line whose stripped form starts with
`# ` names the title; otherwise the filename with every `.md` removed. -/
def Document.title (d : Document) : String :=
  match (pySplit d.content "\n").find? (fun l => pyStartsWith (pyStrip l) "# ") with
  | some l => pyStrip ⟨(pyStrip l).data.drop 2⟩
  | none => pyReplace (lastSegment d.path) ".md" ""

/-- One step of `Document._split_sections`: fold state is
(finished sections, current heading, current line block). -/
def sectionStep (st : List (String × String) × String × List String) (line : String) :
    List (String × String) × String × List String :=
  if pyStartsWith (pyStrip line) "## " then
    let done := if st.2.2 ≠ [] then st.1 ++ [(st.2.1, pyStrip ("\n".intercalate st.2.2))] else st.1
    (done, pyStrip ⟨(pyStrip line).data.drop 3⟩, [])
  else
    (st.1, st.2.1, st.2.2 ++ [line])

/-- `Document._split_sections`: split on `## ` headings; the running block
is flushed only when non-empty, and a trailing empty block is dropped. -/
def Document.sections (d : Document) : List (String × String) :=
  let st := (pySplit d.content "\n").foldl sectionStep ([], "Introduction", [])
  if st.2.2 ≠ [] then st.1 ++ [(st.2.1, pyStrip ("\n".intercalate st.2.2))] else st.1

/-! ## Frontmatter (`VaultRAG._extract_frontmatter`) and format detection -/

/-- Leftmost split of `l` around the first occurrence of `pat`
(`none` when `pat` does not occur). -/
def splitFirst (pat : List Char) : List Char → Option (List Char × List Char)
  | [] => if pat = [] then some ([], []) else none
  | c :: rest =>
    if pat.isPrefixOf (c :: rest) then some ([], (c :: rest).drop pat.length)
    else match splitFirst pat rest with
      | some (a, b) => some (c :: a, b)
      | none => none

/-- `content.split('---', 2)` when the content starts with `---` and has at
least three parts: returns (frontmatter text, remainder). -/
def fmSplit (content : String) : Option (String × String) :=
  if pyStartsWith content "---" then
    match splitFirst "---".data (content.data.drop 3) with
    | some (a, b) => some (⟨a⟩, ⟨b⟩)
    | none => none
  else none

/-- Python `value.strip('[]')`: drop `[` and `]` characters from both ends. -/
def stripBrackets (s : String) : String :=
  ⟨((s.data.dropWhile (fun c => c == '[' || c == ']')).reverse.dropWhile
      (fun c => c == '[' || c == ']')).reverse⟩

/-- Key/value lines of the frontmatter block, in file order
(`line.split(':', 1)` with both sides stripped). -/
def fmPairs (content : String) : List (String × String) :=
  match fmSplit content with
  | none => []
  | some (fm, _) =>
    (pySplit (pyStrip fm) "\n").filterMap (fun line =>
      if line.data.contains ':' then
        some (pyStrip ⟨line.data.takeWhile (· ≠ ':')⟩,
              pyStrip ⟨(line.data.dropWhile (· ≠ ':')).drop 1⟩)
      else none)

/-- Python-dict lookup over the frontmatter pairs: the last assignment wins. -/
def fmLookup (content : String) (key : String) : Option String :=
  ((fmPairs content).reverse.find? (fun p => p.1 == key)).map (·.2)

/-- The `tags` entry parsed as a list: `value.strip('[]').split(',')`,
each tag stripped. -/
def fmTags (content : String) : List String :=
  match fmLookup content "tags" with
  | none => []
  | some v => (pySplit (stripBrackets v) ",").map pyStrip

/-- `Path(path).suffix.lower()`: the final extension of the last path
segment, empty for bare or hidden names. -/
def pathSuffix (p : String) : String :=
  let seg := lastSegment p
  let r := seg.data.reverse
  let ext := r.takeWhile (· != '.')
  match r.dropWhile (· != '.') with
  | '.' :: restR =>
    if restR = [] || ext = [] then "" else pyToLower ⟨'.' :: ext.reverse⟩
  | _ => ""

/-- `VaultRAG._detect_format`. -/
def detectFormat (p : String) : String :=
  match pathSuffix p with
  | ".md" => "text/markdown"
  | ".txt" => "text/plain"
  | ".pdf" => "application/pdf"
  | ".html" => "text/html"
  | ".htm" => "text/html"
  | _ => "application/octet-stream"

/-! ## Chunk splitter (`VaultRAG._split_into_chunks`) -/

/-- Frontmatter removal at the top of `_split_into_chunks`: if the text
starts with `---` and `split('---', 2)` yields three parts, keep the third. -/
def stripFrontmatter (text : String) : String :=
  match fmSplit text with
  | some (_, rest) => rest
  | none => text

/-- Paragraphs that survive the loop: split on blank lines, strip, and skip
empties. -/
def nonEmptyParas (text : String) : List String :=
  ((pySplit text "\n\n").map pyStrip).filter (· ≠ "")

/-- The paragraph's token estimate `len(para.split()) * 1.3`, in tenths of a
token (exact arithmetic standing in for the Python float). -/
def paraCost10 (para : String) : Nat := 13 * wordCount para

/-- One iteration of the accumulation loop of `_split_into_chunks`; state is
(finished chunks, current paragraph block, current length in tenths).
The current block is flushed only when the next paragraph would push it over
the budget AND the block is non-empty. -/
def chunkStep (chunkSize : Nat) (st : List String × List String × Nat)
    (para : String) : List String × List String × Nat :=
  if st.2.2 + paraCost10 para > 10 * chunkSize ∧ st.2.1 ≠ [] then
    (st.1 ++ ["\n\n".intercalate st.2.1], [para], paraCost10 para)
  else
    (st.1, st.2.1 ++ [para], st.2.2 + paraCost10 para)

/-- `VaultRAG._split_into_chunks(text, chunk_size=500)`. -/
def splitIntoChunks (text : String) (chunkSize : Nat := 500) : List String :=
  let t := stripFrontmatter text
  let st := (nonEmptyParas t).foldl (chunkStep chunkSize) ([], [], 0)
  let chunks := if st.2.1 ≠ [] then st.1 ++ ["\n\n".intercalate st.2.1] else st.1
  if chunks ≠ [] then chunks else [⟨t.data.take 1000⟩]

/-! ## Concept extractor (`VaultRAG._extract_domain_concepts`) -/

/-- A heading match of `^#{1,6}\s+(.+)$` on one line: 1–6 `#` characters,
at least one whitespace character, then a non-empty remainder (the captured
group, subsequently stripped).  The code runs the regex in multiline mode
over the whole chunk; this model applies it per line. -/
def headingOfLine (line : String) : Option String :=
  let hashes := line.data.takeWhile (· == '#')
  let rest := line.data.dropWhile (· == '#')
  if 1 ≤ hashes.length ∧ hashes.length ≤ 6 ∧
      (rest.takeWhile Char.isWhitespace) ≠ [] ∧
      (rest.dropWhile Char.isWhitespace) ≠ [] then
    some (pyStrip ⟨rest.dropWhile Char.isWhitespace⟩)
  else none

/-- Headings kept as concepts: stripped text longer than 3 characters and not
the literal `Introduction`. -/
def headingConcepts (text : String) : List String :=
  ((pySplit text "\n").filterMap headingOfLine).filter
    (fun h => 3 < h.length ∧ h ≠ "Introduction")

/-- A Title-Case token for `[A-Z][a-z]+`: one uppercase letter followed by
one or more lowercase letters, as a full word-character run. -/
def isTitleToken (w : List Char) : Bool :=
  match w with
  | c :: rest => c.isUpper && !rest.isEmpty && rest.all Char.isLower
  | [] => false

/-- Split text into maximal word-character runs with the exact gap strings
between them (the first component is the gap before the run); fuel-indexed
so it is structurally recursive, with `l.length` fuel sufficient. -/
def wordTokensF : Nat → List Char → List (List Char × List Char)
  | 0, _ => []
  | fuel + 1, l =>
    match l with
    | [] => []
    | c :: rest =>
      if isWordChar c then
        ([], c :: rest.takeWhile isWordChar) ::
          (match wordTokensF fuel (rest.dropWhile isWordChar) with
           | [] => []
           | (g, w) :: ts => (g, w) :: ts)
      else match wordTokensF fuel rest with
        | [] => []
        | (g, w) :: ts => (c :: g, w) :: ts

/-- The word tokens of a character list. -/
def wordTokens (l : List Char) : List (List Char × List Char) :=
  wordTokensF l.length l

/-- Length of the chain of further Title-Case tokens reachable from the
current one through whitespace-only gaps (greedy `(?:\s+[A-Z][a-z]+){1,3}`
extension, capped by the caller). -/
def chainExt : List (List Char × List Char) → Nat
  | (g, w) :: ts =>
    if g ≠ [] ∧ g.all Char.isWhitespace ∧ isTitleToken w then 1 + chainExt ts else 0
  | [] => 0

/-- Rebuild the matched phrase text: first token, then `take n` further
(gap, token) pairs with their original gap strings. -/
def phraseText (w : List Char) (ts : List (List Char × List Char)) (n : Nat) :
    List Char :=
  w ++ (ts.take n).flatMap (fun p => p.1 ++ p.2)

/-- Greedy left-to-right scan of `\b([A-Z][a-z]+(?:\s+[A-Z][a-z]+){1,3})\b`
over the token stream: a match needs 2–4 consecutive Title-Case tokens
joined by pure-whitespace gaps; the regex takes as many as it can (up to 4)
and scanning resumes after the match. -/
def capScanF : Nat → List (List Char × List Char) → List (List Char)
  | 0, _ => []
  | fuel + 1, l =>
    match l with
    | [] => []
    | (_, w) :: ts =>
      if isTitleToken w then
        let n := min (chainExt ts) 3
        if n = 0 then capScanF fuel ts
        else phraseText w ts n :: capScanF fuel (ts.drop n)
      else capScanF fuel ts

/-- The capitalized-phrase scan over a token stream. -/
def capScan (l : List (List Char × List Char)) : List (List Char) :=
  capScanF l.length l

/-- Stop-word filter of the capitalized-phrase heuristic: the lowercased
phrase must not contain any of these as a substring, and the phrase must be
longer than 5 characters. -/
def capKeep (phrase : String) : Bool :=
  !(["the", "this", "that", "with", "from"].any
      (fun w => (splitFirst w.data (pyToLower phrase).data).isSome)) && 5 < phrase.length

/-- Capitalized 2–4-word phrases extracted from the chunk, filtered. -/
def capConcepts (text : String) : List String :=
  ((capScan (wordTokens text.data)).map (⟨·⟩ : List Char → String)).filter capKeep

/-- First-occurrence deduplication, standing in for Python's
within-process-deterministic `list(set(...))` iteration order. -/
def dedupFirst : List String → List String
  | [] => []
  | x :: rest => x :: (dedupFirst rest).filter (· ≠ x)

/-- `VaultRAG._extract_domain_concepts`: headings plus capitalized phrases,
deduplicated and truncated to 10. -/
def extractDomainConcepts (text : String) : List String :=
  (dedupFirst (headingConcepts text ++ capConcepts text)).take 10

/-! ## Wikilink scanner (`re.findall(r'\[\[([^\]]+)\]\]', content)`) -/

/-- Left-to-right non-overlapping scan for `\[\[([^\]]+)\]\]`, fuel-indexed
so it is structurally recursive (each step consumes at least one character,
so `l.length` fuel suffices): after `[[`, a non-empty run of non-`]`
characters must be followed by `]]`; otherwise the scan advances one
character (the regex engine's behaviour — inside the run no backtracking can
help, since the run cannot contain `]`). -/
def findWLF : Nat → List Char → List (List Char)
  | 0, _ => []
  | fuel + 1, l =>
    match l with
    | '[' :: '[' :: rest =>
      let m := rest.takeWhile (· != ']')
      if m.isEmpty then findWLF fuel ('[' :: rest)
      else
        match rest.dropWhile (· != ']') with
        | ']' :: ']' :: rest2 => m :: findWLF fuel rest2
        | _ => findWLF fuel ('[' :: rest)
    | _ :: rest => findWLF fuel rest
    | [] => []

/-- The wikilink scan over a character list. -/
def findWL (l : List Char) : List (List Char) := findWLF l.length l

/-- The wikilink bodies of a document's raw content, as strings. -/
def wikilinksOf (content : String) : List String :=
  (findWL content.data).map (⟨·⟩)

/-- `link.split('|')[0]`: the text before the first `|` (the whole link when
no `|` occurs). -/
def beforePipe (s : String) : String := ⟨s.data.takeWhile (· != '|')⟩

/-! ## Graph URIs and construction actions -/

/-- `self.NS[self._sanitize_uri(doc.title)]`. -/
def docUri (d : Document) : RNode := .ns (sanitizeUri d.title)

/-- The chunk URI: the sanitized title, then `_chunk_`, then the index
(the f-string of `_add_document_with_chunks`). -/
def chunkUri (d : Document) (i : Nat) : RNode :=
  .ns (sanitizeUri d.title ++ "_chunk_" ++ toString i)

/-- A primitive mutation of the triple store during construction: either a
plain `graph.add(t)`, or the guarded DomainConcept creation
(`if (uri, RDF.type, DomainConcept) not in graph: add type; add prefLabel`). -/
inductive GAction where
  | uncond (t : Triple)
  | concept (key : String) (label : String)
deriving DecidableEq, Repr

/-- Effect of the guarded DomainConcept creation on the store. -/
def conceptStep (s : Store) (key label : String) : Store :=
  if (RNode.onto key, rdfType, RNode.onto "DomainConcept") ∈ s then s
  else (s.addT (RNode.onto key, rdfType, RNode.onto "DomainConcept")).addT
      (RNode.onto key, skosPrefLabel, RNode.lit label)

/-- Run a list of mutations left to right. -/
def runAct (s : Store) : List GAction → Store
  | [] => s
  | .uncond t :: rest => runAct (s.addT t) rest
  | .concept k l :: rest => runAct (conceptStep s k l) rest

/-- The `DCT` metadata triples of `_add_document_with_chunks` (title, author,
date-or-created), derived from the frontmatter. -/
def fmMetaTriples (d : Document) : List Triple :=
  (match fmLookup d.content "title" with
   | some v => [(docUri d, dctTitle, RNode.lit v)]
   | none => []) ++
  (match fmLookup d.content "author" with
   | some v => [(docUri d, dctCreator, RNode.lit v)]
   | none => []) ++
  (if (fmLookup d.content "date").isSome ∨ (fmLookup d.content "created").isSome then
     let v := match fmLookup d.content "date" with
       | some dv => if dv = "" then ((fmLookup d.content "created").getD "None") else dv
       | none => (fmLookup d.content "created").getD "None"
     [(docUri d, dctCreated, RNode.lit v)]
   else [])

/-- The tag triples shared by both document-insertion paths. -/
def tagTriples (d : Document) : List Triple :=
  (fmTags d.content).flatMap (fun tag =>
    [(docUri d, RNode.onto "hasTag", RNode.onto (sanitizeUri tag)),
     (RNode.onto (sanitizeUri tag), rdfType, RNode.onto "Tag"),
     (RNode.onto (sanitizeUri tag), rdfsLabel, RNode.lit tag)])

/-- Mutations performed by `VaultRAG._add_document_with_chunks`, in program
order: document metadata, tags, chunks with guarded concept creation and
`mentionsConcept` edges, then the legacy heading concepts with `mentions`
edges. -/
def docActions (d : Document) : List GAction :=
  [GAction.uncond (docUri d, rdfType, RNode.onto "Document"),
   GAction.uncond (docUri d, rdfsLabel, RNode.lit d.title),
   GAction.uncond (docUri d, RNode.onto "path", RNode.lit d.path),
   GAction.uncond (docUri d, RNode.onto "sourceFormat", RNode.lit (detectFormat d.path))] ++
  (fmMetaTriples d).map GAction.uncond ++
  (tagTriples d).map GAction.uncond ++
  ((splitIntoChunks d.content).enum.flatMap (fun p =>
    [GAction.uncond (chunkUri d p.1, rdfType, RNode.onto "Chunk"),
     GAction.uncond (chunkUri d p.1, RNode.onto "chunkIndex", RNode.litNat p.1),
     GAction.uncond (chunkUri d p.1, RNode.onto "chunkText", RNode.lit p.2),
     GAction.uncond (docUri d, RNode.onto "hasChunk", chunkUri d p.1)] ++
    (extractDomainConcepts p.2).flatMap (fun label =>
      [GAction.concept (sanitizeUri label) label,
       GAction.uncond (chunkUri d p.1, RNode.onto "mentionsConcept",
         RNode.onto (sanitizeUri label))]))) ++
  (d.sections.flatMap (fun sec =>
    if sec.1 ≠ "" ∧ sec.1 ≠ "Introduction" then
      [GAction.concept (sanitizeUri sec.1) sec.1,
       GAction.uncond (docUri d, RNode.onto "mentions", RNode.onto (sanitizeUri sec.1))]
    else []))

/-- Mutations performed by the legacy `VaultRAG._add_document_to_graph`
(chunking disabled): everything unconditional, headings typed as the legacy
`Concept` class. -/
def docActionsLegacy (d : Document) : List GAction :=
  [GAction.uncond (docUri d, rdfType, RNode.onto "Document"),
   GAction.uncond (docUri d, rdfsLabel, RNode.lit d.title),
   GAction.uncond (docUri d, RNode.onto "path", RNode.lit d.path)] ++
  (tagTriples d).map GAction.uncond ++
  (d.sections.flatMap (fun sec =>
    if sec.1 ≠ "" ∧ sec.1 ≠ "Introduction" then
      [GAction.uncond (docUri d, RNode.onto "mentions", RNode.onto (sanitizeUri sec.1)),
       GAction.uncond (RNode.onto (sanitizeUri sec.1), rdfType, RNode.onto "Concept"),
       GAction.uncond (RNode.onto (sanitizeUri sec.1), rdfsLabel, RNode.lit sec.1)]
    else []))

/-- The `linksTo` triples of `VaultRAG._extract_relationships`: one per
wikilink, unconditionally, to the sanitized key of the pre-`|` part. -/
def linksToTriples (d : Document) : List Triple :=
  (wikilinksOf d.content).map (fun link =>
    (docUri d, RNode.onto "linksTo", RNode.ns (sanitizeUri (beforePipe link))))

/-- Relationship-pass mutations for one document. -/
def relActions (d : Document) : List GAction :=
  (linksToTriples d).map GAction.uncond

/-- The NetworkX edges `_extract_relationships` adds: only when some loaded
document's title equals the (unsanitized) link target exactly. -/
def nxEdgesOf (d : Document) (docs : List Document) : List (String × String) :=
  (wikilinksOf d.content).filterMap (fun link =>
    let target := beforePipe link
    if target ∈ docs.map Document.title then some (d.title, target) else none)

/-! ## Topic clusterer (`VaultRAG._generate_topics`) -/

/-- `list(graph.subjects(RDF.type, ONTO.DomainConcept))`. -/
def conceptsOf (s : Store) : List RNode :=
  subjectsOf s rdfType (RNode.onto "DomainConcept")

/-- `topic_size = min(10, max(5, len(concepts) // 3))`. -/
def topicSize (n : Nat) : Nat := min 10 (max 5 (n / 3))

/-- `[l[j:j+k] for j in range(0, len(l), k)]` for `k > 0`, fuel-indexed so
it is structurally recursive, with `l.length` fuel sufficient. -/
def chunkBatchesF (k : Nat) : Nat → List α → List (List α)
  | _, [] => []
  | 0, x :: xs => [x :: xs]
  | fuel + 1, x :: xs =>
    if k = 0 then [x :: xs]
    else (x :: xs).take k :: chunkBatchesF k fuel ((x :: xs).drop k)

/-- The sequential batches of size `k`. -/
def chunkBatches (k : Nat) (l : List α) : List (List α) :=
  chunkBatchesF k l.length l

/-- The sequential concept batches the clusterer forms. -/
def topicBatches (concepts : List RNode) : List (List RNode) :=
  chunkBatches (topicSize concepts.length) concepts

/-- Label cleaning inside `_generate_topics`: replace CR/LF with spaces,
strip, and normalize internal whitespace (`' '.join(clean.split())`). -/
def cleanLabel (s : String) : String :=
  " ".intercalate (pyWords (pyStrip (pyReplace (pyReplace s "\n" " ") "\r" " ")))

/-- The label pool of a batch: `prefLabel` values of the batch's first three
concepts, read from the live store, cleaned. -/
def collectLabels (s : Store) (batch : List RNode) : List String :=
  (batch.take 3).flatMap (fun c =>
    (objectsOf s c skosPrefLabel).map (fun o => cleanLabel o.str))

/-- The topic label `Topic: L1, L2` joined from the first two labels,
truncated to 80 characters with an ellipsis when longer. -/
def topicLabelOfLabels (labels : List String) : String :=
  let tl := "Topic: " ++ ", ".intercalate (labels.take 2)
  if tl.length > 80 then ⟨tl.data.take 77⟩ ++ "..." else tl

/-- The topic's `rdfs:comment`: `', '.join(labels[:5])` plus an
`" (and N more)"` suffix when more than five labels were collected, `N`
counting the collected labels beyond five. -/
def topicCommentOfLabels (labels : List String) : String :=
  let names := ", ".intercalate (labels.take 5)
  let names := if labels.length > 5 then
      names ++ " (and " ++ toString (labels.length - 5) ++ " more)"
    else names
  "Clusters concepts: " ++ names

/-- The triples added for one `(i, concept_batch)` iteration of
`_generate_topics`, threading the live store through every query and add. -/
def addTopicBatch (s : Store) (i : Nat) (batch : List RNode) : Store :=
  let labels := collectLabels s batch
  let tUri := RNode.onto ("topic_" ++ toString i)
  let s1 := s.addT (tUri, rdfType, RNode.onto "TopicNode")
  let s2 := s1.addT (tUri, skosPrefLabel, RNode.lit (topicLabelOfLabels labels))
  let s3 := s2.addT (tUri, skosDefinition,
    RNode.lit ("Auto-generated topic covering " ++ toString batch.length ++
      " domain concepts"))
  let s4 := s3.addT (tUri, rdfsComment, RNode.lit (topicCommentOfLabels labels))
  let s5 := batch.foldl (fun acc c =>
    acc.addT (tUri, RNode.onto "coversConcept", c)) s4
  batch.foldl (fun acc c =>
    (subjectsOf acc (RNode.onto "mentionsConcept") c).foldl (fun a ch =>
      a.addT (tUri, RNode.onto "coversChunk", ch)) acc) s5

/-- `VaultRAG._generate_topics`: a no-op below three DomainConcepts,
otherwise one TopicNode per sequential batch. -/
def genTopics (s : Store) : Store :=
  let concepts := conceptsOf s
  if concepts.length < 3 then s
  else ((topicBatches concepts).enum).foldl
    (fun acc p => addTopicBatch acc p.1 p.2) s

/-! ## `VaultRAG.build_knowledge_graph` -/

/-- All store mutations of the two construction passes, in program order. -/
def buildActs (docs : List Document) (enableChunking : Bool) : List GAction :=
  docs.flatMap (fun d => if enableChunking then docActions d else docActionsLegacy d) ++
  docs.flatMap relActions

/-- `VaultRAG.build_knowledge_graph(enable_chunking, enable_topics)` acting
on the current store: pass 1 adds every document (with or without chunking),
pass 2 adds wikilink relationships, and the optional topic pass runs last.
The returned triple count is the resulting store's length. -/
def buildKG (docs : List Document) (enableChunking enableTopics : Bool)
    (s : Store) : Store :=
  let s2 := runAct s (buildActs docs enableChunking)
  if enableTopics then genTopics s2 else s2

/-! ## Query engine (`VaultRAG.query_sparql`) -/

/-- A value bound to a variable in a SPARQL result row, as `rdflib` returns
it: a `Literal`, a `URIRef`, or some other term (e.g. a blank node). -/
inductive RValue where
  | lit (s : String)
  | uri (s : String)
  | otherTerm (s : String)
deriving DecidableEq, Repr

/-- A cell of the returned row dict: `str(value)` for literals and URIs,
the raw value for anything else (the code's final `else` branch). -/
inductive OutVal where
  | str (s : String)
  | raw (v : RValue)
deriving DecidableEq, Repr

/-- The per-value conversion inside the result loop of `query_sparql`. -/
def convertValue : RValue → OutVal
  | .lit s => .str s
  | .uri s => .str s
  | v => .raw v

/-- `VaultRAG.query_sparql`: the backend (`rdflib`'s SPARQL engine, external
to this repository) either raises — modelled as `Except.error` — or yields
rows of variable bindings; the wrapper converts each binding and returns
`[]` on any backend failure instead of propagating it. -/
def querySparql (backend : String → Except String (List (List (String × RValue))))
    (q : String) : List (List (String × OutVal)) :=
  match backend q with
  | .error _ => []
  | .ok rows => rows.map (fun row => row.map (fun p => (p.1, convertValue p.2)))

/-! ## Exporter (`VaultRAG.export_graph_ttl`) -/

/-- Number of subjects typed with the given class. -/
def countType (s : Store) (ty : RNode) : Nat := (subjectsOf s rdfType ty).length

/-- POSIX `Path(p).is_absolute()`. -/
def isAbsPath (p : String) : Bool := pyStartsWith p "/"

/-- The engine's graphs cache directory under the default
`cache_dir="data"`: `Path("data") / "graphs"`. -/
def graphsCacheDir : String := "data/graphs"

/-- Output-path resolution of `export_graph_ttl`: the name is used verbatim
when absolute or when it textually starts with `data`; otherwise it is
joined under the graphs cache directory. -/
def resolveExportPath (filename : String) : String :=
  if isAbsPath filename ∨ pyStartsWith filename "data" then filename
  else graphsCacheDir ++ "/" ++ filename

/-- The `#`-commented header block prepended to the serialized graph
(`datetime.now()` is passed in as `now`). -/
def ttlHeader (s : Store) (now : String) : String :=
  "# Knowledge Graph Export\n# Generated: " ++ now ++ "\n# \n# Graph Statistics:\n" ++
  "#   - Documents: " ++ toString (countType s (RNode.onto "Document")) ++ "\n" ++
  "#   - Chunks: " ++ toString (countType s (RNode.onto "Chunk")) ++ "\n" ++
  "#   - Domain Concepts: " ++ toString (countType s (RNode.onto "DomainConcept")) ++ "\n" ++
  "#   - Topic Nodes: " ++ toString (countType s (RNode.onto "TopicNode")) ++ "\n" ++
  "#   - Total Triples: " ++ toString s.length ++ "\n" ++
  "# \n# Structure Guide:\n" ++
  "#   1. Topic Nodes (onto:TopicNode) - Navigation layer organizing concepts\n" ++
  "#   2. Documents (onto:Document) - Source files with metadata\n" ++
  "#   3. Chunks (onto:Chunk) - Text segments from documents\n" ++
  "#   4. Domain Concepts (onto:DomainConcept) - Knowledge entities\n" ++
  "#   5. Tags (onto:Tag) - Document categorization\n" ++
  "# \n# Relationships:\n" ++
  "#   - onto:hasChunk: Document → Chunk (1-to-many)\n" ++
  "#   - onto:mentionsConcept: Chunk → DomainConcept (many-to-many)\n" ++
  "#   - onto:coversConcept: TopicNode → DomainConcept (many-to-many)\n" ++
  "#   - onto:coversChunk: TopicNode → Chunk (many-to-many)\n" ++
  "# \n# For more information, see: README.md\n#\n\n"

/-- `VaultRAG.export_graph_ttl`: on an uninitialized graph (`rdf_graph is
None`) return `""` and write nothing; otherwise resolve the output path,
write header followed by the serialized body (`serialized` models
`rdflib`'s Turtle output), and return the path.  The result is the returned
string paired with the optional (path, file content) write. -/
def exportGraphTTL (graph : Option Store) (filename : Option String)
    (now serialized : String) : String × Option (String × String) :=
  match graph with
  | none => ("", none)
  | some s =>
    let fname := filename.getD "knowledge_graph.ttl"
    let p := resolveExportPath fname
    (p, some (p, ttlHeader s now ++ serialized))

/-! ## Derived views of a build -/

/-- The `prefLabel` objects stored for the DomainConcept key's URI, in
insertion order. -/
def prefLabels (key : String) (s : Store) : List RNode :=
  objectsOf s (RNode.onto key) skosPrefLabel

/-- The DomainConcept type triple of a sanitized key. -/
def typeTriple (key : String) : Triple :=
  (RNode.onto key, rdfType, RNode.onto "DomainConcept")

/-- The labels a list of mutations tries to insert for one sanitized key,
in program order. -/
def actLabelsFor (key : String) (acts : List GAction) : List String :=
  acts.filterMap (fun a =>
    match a with
    | .concept k l => if k = key then some l else none
    | _ => none)

/-- The labels a build inserts for one sanitized key, in insertion order. -/
def conceptLabelsFor (key : String) (docs : List Document)
    (enableChunking : Bool) : List String :=
  actLabelsFor key (buildActs docs enableChunking)

/-- An unconditional triple that would interfere with tracking the
DomainConcept state of one key: same subject URI and either the concept type
triple itself or a `prefLabel` assertion. -/
def touchesKey (key : String) (t : Triple) : Prop :=
  t.1 = RNode.onto key ∧
    ((t.2.1 = rdfType ∧ t.2.2 = RNode.onto "DomainConcept") ∨ t.2.1 = skosPrefLabel)

/-! ## Concrete instances used by witnesses and counterexamples -/

/-- A document whose single chunk yields the three heading concepts
`topic 0`, `Alpha x`, `Beta y`; the first sanitizes to `topic_0`, colliding
with the URI of the first generated TopicNode. -/
def demoDoc : Document := ⟨"note.md", "## topic 0\n\n## Alpha x\n\n## Beta y"⟩

/-- A document inserting two distinct labels (`Alpha  x`, `Alpha x`) that
sanitize to the same key `Alpha_x`. -/
def twoLabelDoc : Document := ⟨"n.md", "## Alpha  x\n\n## Alpha x"⟩

/-- A store holding twelve DomainConcepts `c0 … c11`. -/
def s12 : Store :=
  (List.range 12).flatMap (fun i =>
    [((RNode.onto ("c" ++ toString i)), rdfType, RNode.onto "DomainConcept"),
     ((RNode.onto ("c" ++ toString i)), skosPrefLabel,
       RNode.lit ("C" ++ toString i))])

/-- A store holding five DomainConcepts labelled `Alpha … Echo`. -/
def s5C5 : Store :=
  (List.range 5).flatMap (fun i =>
    [((RNode.onto ("c" ++ toString i)), rdfType, RNode.onto "DomainConcept"),
     ((RNode.onto ("c" ++ toString i)), skosPrefLabel,
       RNode.lit (["Alpha", "Bravo", "Charlie", "Delta", "Echo"].getD i ""))])

/-- A document titled `A  B` (sanitized key `A_B`). -/
def docA : Document := ⟨"a.md", "# A  B\n\nfoo"⟩

/-- A different document titled `A B`, whose title sanitizes to the same
key `A_B`. -/
def docB : Document := ⟨"b.md", "# A B\n\nbar"⟩

/-- A document containing a single aliased wikilink. -/
def wikiDoc : Document := ⟨"A.md", "[[Target|Alias]]"⟩

/-- A document titled `target` — differing from the link target `Target`
only in case. -/
def lowerTargetDoc : Document := ⟨"t.md", "# target\n\nx"⟩

/-- The comment the spec describes for a TopicNode (`spec.md` §4.4 / claims):
list up to five member-concept labels, and append an `"(and N more)"` suffix
when the batch has more members than were listed.  Kept separate from
`topicCommentOfLabels` (the code's behaviour) for comparison. -/
def specTopicComment (memberLabels : List String) : String :=
  let listed := memberLabels.take 5
  let base := "Clusters concepts: " ++ ", ".intercalate listed
  if memberLabels.length > listed.length then
    base ++ " (and " ++ toString (memberLabels.length - listed.length) ++ " more)"
  else base

/-- A query backend for the query-engine witness: one query string fails to
parse, every other one returns a single row binding `s` to a URI and `n` to
a literal. -/
def demoBackend (q : String) : Except String (List (List (String × RValue))) :=
  if q = "not a valid query" then .error "parse error"
  else .ok [[("s", RValue.uri "http://pkm.local/sources/A"), ("n", RValue.lit "1")]]

/-! ## Store lemmas -/

theorem Store.mem_addT {s : Store} {t x : Triple} :
    x ∈ s.addT t ↔ x ∈ s ∨ x = t := by
  unfold Store.addT
  split
  · rename_i h
    constructor
    · exact fun hx => Or.inl hx
    · rintro (hx | rfl) <;> assumption
  · simp

theorem Store.addT_of_mem {s : Store} {t : Triple} (h : t ∈ s) : s.addT t = s := by
  simp [Store.addT, h]

theorem Store.mem_addT_of_mem {s : Store} {t x : Triple} (h : x ∈ s) :
    x ∈ s.addT t := Store.mem_addT.mpr (Or.inl h)

theorem Store.self_mem_addT (s : Store) (t : Triple) : t ∈ s.addT t :=
  Store.mem_addT.mpr (Or.inr rfl)

theorem conceptStep_mem {s : Store} {x : Triple} (k l : String) (h : x ∈ s) :
    x ∈ conceptStep s k l := by
  unfold conceptStep
  split
  · exact h
  · exact Store.mem_addT_of_mem (Store.mem_addT_of_mem h)

/-- The DomainConcept type triple is always present after the guarded
creation. -/
theorem conceptStep_type_mem (s : Store) (k l : String) :
    (RNode.onto k, rdfType, RNode.onto "DomainConcept") ∈ conceptStep s k l := by
  unfold conceptStep
  split
  · assumption
  · exact Store.mem_addT_of_mem (Store.self_mem_addT ..)

theorem conceptStep_of_type_mem {s : Store} {k l : String}
    (h : (RNode.onto k, rdfType, RNode.onto "DomainConcept") ∈ s) :
    conceptStep s k l = s := by
  simp [conceptStep, h]

theorem mem_runAct {s : Store} {x : Triple} (acts : List GAction) (h : x ∈ s) :
    x ∈ runAct s acts := by
  induction acts generalizing s with
  | nil => exact h
  | cons a rest ih =>
    cases a with
    | uncond t => exact ih (Store.mem_addT_of_mem h)
    | concept k l => exact ih (conceptStep_mem k l h)

/-- Replaying a sequence of mutations over a store that already contains
everything the sequence produced is the identity: every unconditional add
hits an existing triple, and every guarded concept creation finds its type
triple present and is skipped. -/
theorem runAct_absorb {s s' : Store} (acts : List GAction)
    (h : ∀ x ∈ runAct s acts, x ∈ s') : runAct s' acts = s' := by
  induction acts generalizing s s' with
  | nil => rfl
  | cons a rest ih =>
    cases a with
    | uncond t =>
      have ht : t ∈ s' :=
        h t (mem_runAct rest (Store.self_mem_addT s t))
      show runAct (s'.addT t) rest = s'
      rw [Store.addT_of_mem ht]
      exact ih (s := s.addT t) h
    | concept k l =>
      have hτ : (RNode.onto k, rdfType, RNode.onto "DomainConcept") ∈ s' :=
        h _ (mem_runAct rest (conceptStep_type_mem s k l))
      show runAct (conceptStep s' k l) rest = s'
      rw [conceptStep_of_type_mem hτ]
      exact ih (s := conceptStep s k l) h

theorem Store.addT_nodup {s : Store} {t : Triple} (h : s.Nodup) :
    (s.addT t).Nodup := by
  unfold Store.addT
  split
  · exact h
  · rename_i ht
    simpa [List.nodup_append] using ⟨h, ht⟩

theorem conceptStep_nodup {s : Store} (k l : String) (h : s.Nodup) :
    (conceptStep s k l).Nodup := by
  unfold conceptStep
  split
  · exact h
  · exact Store.addT_nodup (Store.addT_nodup h)

theorem runAct_nodup {s : Store} (acts : List GAction) (h : s.Nodup) :
    (runAct s acts).Nodup := by
  induction acts generalizing s with
  | nil => exact h
  | cons a rest ih =>
    cases a with
    | uncond t => exact ih (Store.addT_nodup h)
    | concept k l => exact ih (conceptStep_nodup k l h)

/-- Preservation of a predicate under `List.foldl`. -/
theorem foldl_pres {β γ : Type} {f : γ → β → γ} {P : γ → Prop}
    (h : ∀ acc x, P acc → P (f acc x)) :
    ∀ (l : List β) (acc : γ), P acc → P (l.foldl f acc) := by
  intro l
  induction l with
  | nil => exact fun acc hp => hp
  | cons x rest ih => exact fun acc hp => ih (f acc x) (h acc x hp)

theorem addTopicBatch_nodup {s : Store} (i : Nat) (batch : List RNode)
    (h : s.Nodup) : (addTopicBatch s i batch).Nodup := by
  unfold addTopicBatch
  refine foldl_pres (P := fun st : Store => st.Nodup) (fun acc c hacc => ?_) batch _ ?_
  · exact foldl_pres (P := fun st : Store => st.Nodup)
      (fun a ch ha => Store.addT_nodup ha) _ _ hacc
  · refine foldl_pres (P := fun st : Store => st.Nodup)
      (fun acc c hacc => Store.addT_nodup hacc) batch _ ?_
    exact Store.addT_nodup (Store.addT_nodup (Store.addT_nodup (Store.addT_nodup h)))

theorem genTopics_nodup {s : Store} (h : s.Nodup) : (genTopics s).Nodup := by
  rw [genTopics]
  split
  · exact h
  · exact foldl_pres (P := fun st : Store => st.Nodup)
      (fun acc (p : Nat × List RNode) hacc => addTopicBatch_nodup p.1 p.2 hacc) _ _ h

theorem mem_addTopicBatch {s : Store} {x : Triple} (i : Nat)
    (batch : List RNode) (h : x ∈ s) : x ∈ addTopicBatch s i batch := by
  unfold addTopicBatch
  refine foldl_pres (P := fun st : Store => x ∈ st) (fun acc c hacc => ?_) batch _ ?_
  · exact foldl_pres (P := fun st : Store => x ∈ st)
      (fun a ch ha => Store.mem_addT_of_mem ha) _ _ hacc
  · refine foldl_pres (P := fun st : Store => x ∈ st)
      (fun acc c hacc => Store.mem_addT_of_mem hacc) batch _ ?_
    exact Store.mem_addT_of_mem (Store.mem_addT_of_mem
      (Store.mem_addT_of_mem (Store.mem_addT_of_mem h)))

theorem mem_genTopics {s : Store} {x : Triple} (h : x ∈ s) : x ∈ genTopics s := by
  rw [genTopics]
  split
  · exact h
  · exact foldl_pres (P := fun st : Store => x ∈ st)
      (fun acc (p : Nat × List RNode) hacc => mem_addTopicBatch p.1 p.2 hacc) _ _ h

theorem mem_buildKG {docs : List Document} {ch tp : Bool} {s : Store}
    {x : Triple} (h : x ∈ s) : x ∈ buildKG docs ch tp s := by
  unfold buildKG
  split
  · exact mem_genTopics (mem_runAct _ h)
  · exact mem_runAct _ h

theorem countOcc_eq_zero {s : Store} {t : Triple} (h : t ∉ s) :
    countOcc s t = 0 := by
  induction s with
  | nil => rfl
  | cons a rest ih =>
    have hat : ¬ (a = t) := fun hat => h (hat ▸ List.mem_cons_self a rest)
    have hrest : t ∉ rest := fun hm => h (List.mem_cons_of_mem a hm)
    simpa [countOcc, List.filter_cons, hat] using ih hrest

theorem countOcc_eq_one {s : Store} {t : Triple} (hn : s.Nodup) (hm : t ∈ s) :
    countOcc s t = 1 := by
  induction s with
  | nil => cases hm
  | cons a rest ih =>
    have hnod := List.nodup_cons.mp hn
    rcases List.mem_cons.mp hm with rfl | hmr
    · simpa [countOcc, List.filter_cons] using countOcc_eq_zero hnod.1
    · have hat : ¬ (a = t) := by
        rintro rfl
        exact hnod.1 hmr
      simpa [countOcc, List.filter_cons, hat] using ih hnod.2 hmr


/-! ## Claim C1 — idempotent insertion and rebuild -/

theorem buildKG_noTopics (docs : List Document) (ch : Bool) (s : Store) :
    buildKG docs ch false s = runAct s (buildActs docs ch) := by
  simp [buildKG]

/-- Claim C1, amended: triple insertion is idempotent — re-adding a triple
already in the store leaves the store unchanged — and, with topic generation
disabled (the default), running `build_knowledge_graph` a second time over
the same in-memory store with an unchanged document set leaves the store,
and hence the triple count, unchanged.  (With topics enabled the rebuild may
grow the store; see the counterexample.) -/
theorem claimC1_insert_and_rebuild_idempotent :
    (∀ (s : Store) (t : Triple), t ∈ s → s.addT t = s) ∧
    (∀ (docs : List Document) (enableChunking : Bool) (s : Store),
      buildKG docs enableChunking false (buildKG docs enableChunking false s) =
          buildKG docs enableChunking false s ∧
      (buildKG docs enableChunking false
          (buildKG docs enableChunking false s)).length =
        (buildKG docs enableChunking false s).length) := by
  refine ⟨fun s t h => Store.addT_of_mem h, fun docs ch s => ?_⟩
  have h : buildKG docs ch false (buildKG docs ch false s) =
      buildKG docs ch false s := by
    rw [buildKG_noTopics docs ch (buildKG docs ch false s), buildKG_noTopics docs ch s]
    exact runAct_absorb _ (fun x hx => hx)
  exact ⟨h, by rw [h]⟩

/-- Witness for `claimC1_insert_and_rebuild_idempotent` at concrete inputs:
the membership hypothesis is discharged by evaluation. -/
theorem claimC1_witness :
    ((RNode.onto "a", rdfType, RNode.onto "Tag") ∈
        ([(RNode.onto "a", rdfType, RNode.onto "Tag")] : Store) ∧
      Store.addT [(RNode.onto "a", rdfType, RNode.onto "Tag")]
          (RNode.onto "a", rdfType, RNode.onto "Tag") =
        [(RNode.onto "a", rdfType, RNode.onto "Tag")]) ∧
    buildKG [demoDoc] true false (buildKG [demoDoc] true false []) =
      buildKG [demoDoc] true false [] :=
  ⟨⟨by decide, claimC1_insert_and_rebuild_idempotent.1 _ _ (by decide)⟩,
   (claimC1_insert_and_rebuild_idempotent.2 [demoDoc] true []).1⟩

set_option maxRecDepth 1000000 in
/-- Counterexample to claim C1 as stated: with topic generation enabled,
rebuilding over the same store from the unchanged document set `[demoDoc]`
grows the triple count (27 to 29).  The concept key `topic_0` collides with
the URI of the first generated TopicNode, so on the second build that
concept carries the topic's `prefLabel` as well, and the regenerated topic
label and comment are new literals. -/
theorem claimC1_counterexample :
    (buildKG [demoDoc] true true (buildKG [demoDoc] true true [])).length ≠
      (buildKG [demoDoc] true true []).length := by decide


/-! ## Claim C3 — chunk splitter flush guard and single-paragraph rule -/

/-- Claim C3: the accumulation loop flushes the current chunk only when the
next paragraph would push it over the token budget AND the current chunk is
non-empty; consequently any document body with a single surviving paragraph
splits into exactly one chunk at `chunk_size = 500`, whatever the
paragraph's word count. -/
theorem claimC3_flush_guard_and_single_paragraph :
    (∀ (chunkSize : Nat) (st : List String × List String × Nat) (para : String),
      (chunkStep chunkSize st para).1 ≠ st.1 →
        st.2.2 + paraCost10 para > 10 * chunkSize ∧ st.2.1 ≠ []) ∧
    (∀ (text p : String),
      nonEmptyParas (stripFrontmatter text) = [p] →
        (splitIntoChunks text 500).length = 1) := by
  constructor
  · intro cs st para h
    by_cases hc : st.2.2 + paraCost10 para > 10 * cs ∧ st.2.1 ≠ []
    · exact hc
    · exact absurd (by simp [chunkStep, hc]) h
  · intro text p hp
    simp [splitIntoChunks, hp, chunkStep]

/-- Witness for `claimC3_flush_guard_and_single_paragraph` at concrete
inputs. -/
theorem claimC3_witness :
    ((chunkStep 500 ([], ["a"], 6500) "b").1 ≠ [] ∧
      6500 + paraCost10 "b" > 10 * 500 ∧ (["a"] : List String) ≠ []) ∧
    (nonEmptyParas (stripFrontmatter "hello world") = ["hello world"] ∧
      (splitIntoChunks "hello world" 500).length = 1) :=
  ⟨⟨by decide, claimC3_flush_guard_and_single_paragraph.1 500 ([], ["a"], 6500) "b"
      (by decide)⟩,
   ⟨by decide, claimC3_flush_guard_and_single_paragraph.2 "hello world" "hello world"
      (by decide)⟩⟩

/-! ## Claim C4 — topic clustering arithmetic and partition -/

theorem chunkBatchesF_flatten {α : Type} (k : Nat) (hk : 0 < k) :
    ∀ (fuel : Nat) (l : List α), l.length ≤ fuel →
      (chunkBatchesF k fuel l).flatten = l := by
  intro fuel
  induction fuel with
  | zero =>
    intro l hl
    have hnil : l = [] := List.length_eq_zero.mp (Nat.le_zero.mp hl)
    subst hnil
    rfl
  | succ fuel ih =>
    intro l hl
    match l with
    | [] => rfl
    | x :: xs =>
      have hk0 : ¬ k = 0 := Nat.pos_iff_ne_zero.mp hk
      rw [chunkBatchesF, if_neg hk0]
      rw [List.flatten_cons, ih ((x :: xs).drop k) (by simp at hl ⊢; omega)]
      exact List.take_append_drop k (x :: xs)

theorem chunkBatches_flatten {α : Type} (k : Nat) (hk : 0 < k) (l : List α) :
    (chunkBatches k l).flatten = l :=
  chunkBatchesF_flatten k hk l.length l le_rfl

theorem chunkBatches_disjoint {α : Type} (k : Nat) (hk : 0 < k) (l : List α)
    (hn : l.Nodup) : (chunkBatches k l).Pairwise List.Disjoint := by
  have h : (chunkBatches k l).flatten.Nodup := by
    rw [chunkBatches_flatten k hk l]
    exact hn
  exact (List.nodup_flatten.mp h).2

set_option maxRecDepth 1000000 in
/-- Claim C4: topic clustering does nothing below three DomainConcepts;
`topic_size` is the clamp of `len // 3` into `[5, 10]`; the sequential
batches are a strict partition of the concept list (no omissions by the
flatten equation, no overlaps by pairwise disjointness on duplicate-free
concept lists); and on a store with exactly 12 DomainConcepts the clusterer
forms batches of sizes 5, 5, 2 and creates exactly 3 TopicNodes. -/
theorem claimC4_topic_partition :
    (∀ s : Store, (conceptsOf s).length < 3 → genTopics s = s) ∧
    (∀ n : Nat, topicSize n = min (max (n / 3) 5) 10) ∧
    (∀ (k : Nat) (l : List RNode), 0 < k → (chunkBatches k l).flatten = l) ∧
    (∀ (k : Nat) (l : List RNode), 0 < k → l.Nodup →
      (chunkBatches k l).Pairwise List.Disjoint) ∧
    ((topicBatches (conceptsOf s12)).map List.length = [5, 5, 2] ∧
      countType (genTopics s12) (RNode.onto "TopicNode") = 3) := by
  refine ⟨?_, ?_, fun k l hk => chunkBatches_flatten k hk l,
    fun k l hk hn => chunkBatches_disjoint k hk l hn, by decide⟩
  · intro s h
    rw [genTopics, if_pos h]
  · intro n
    unfold topicSize
    omega

set_option maxRecDepth 1000000 in
/-- Witness for `claimC4_topic_partition` at concrete inputs. -/
theorem claimC4_witness :
    ((conceptsOf ([] : Store)).length < 3 ∧ genTopics ([] : Store) = []) ∧
    (0 < 5 ∧ (chunkBatches 5 (conceptsOf s12)).flatten = conceptsOf s12) ∧
    ((conceptsOf s12).Nodup ∧
      (chunkBatches 5 (conceptsOf s12)).Pairwise List.Disjoint) :=
  ⟨⟨by decide, claimC4_topic_partition.1 [] (by decide)⟩,
   ⟨by decide, claimC4_topic_partition.2.2.1 5 (conceptsOf s12) (by decide)⟩,
   ⟨by decide, claimC4_topic_partition.2.2.2.1 5 (conceptsOf s12) (by decide)
      (by decide)⟩⟩

/-! ## Claim C5 — topic comment contents -/

theorem flatMap_length_of_singletons {α β : Type} (g : α → List β) :
    ∀ l : List α, (∀ c ∈ l, (g c).length = 1) → (l.flatMap g).length = l.length := by
  intro l
  induction l with
  | nil => simp
  | cons c rest ih =>
    intro h
    simp only [List.flatMap_cons, List.length_append, List.length_cons]
    rw [h c (List.mem_cons_self c rest), ih (fun x hx => h x (List.mem_cons_of_mem c hx))]
    omega

/-- Claim C5, amended: the topic comment is built from the `prefLabel`s of
only the first three member concepts of the batch; when every concept
carries one `prefLabel` (as the construction guarantees), at most three
labels are collected, the comment lists exactly those labels and no
"(and N more)" suffix is ever appended. -/
theorem claimC5_amended_comment_first_three :
    ∀ (s : Store) (batch : List RNode),
      (∀ c ∈ batch, (objectsOf s c skosPrefLabel).length = 1) →
      (collectLabels s batch).length ≤ 3 ∧
      topicCommentOfLabels (collectLabels s batch) =
        "Clusters concepts: " ++ ", ".intercalate (collectLabels s batch) := by
  intro s batch h
  have hlen : (collectLabels s batch).length = (batch.take 3).length := by
    unfold collectLabels
    refine flatMap_length_of_singletons _ (batch.take 3) (fun c hc => ?_)
    rw [List.length_map]
    exact h c (List.mem_of_mem_take hc)
  have hle : (collectLabels s batch).length ≤ 3 := by
    rw [hlen, List.length_take]
    omega
  refine ⟨hle, ?_⟩
  unfold topicCommentOfLabels
  rw [List.take_of_length_le (le_trans hle (by omega))]
  simp only [if_neg (by omega : ¬ (collectLabels s batch).length > 5)]

set_option maxRecDepth 1000000 in
/-- Witness for `claimC5_amended_comment_first_three` at a concrete store
and batch. -/
theorem claimC5_witness :
    (∀ c ∈ [RNode.onto "c0", RNode.onto "c1"],
        (objectsOf s5C5 c skosPrefLabel).length = 1) ∧
    (collectLabels s5C5 [RNode.onto "c0", RNode.onto "c1"]).length ≤ 3 ∧
    topicCommentOfLabels (collectLabels s5C5 [RNode.onto "c0", RNode.onto "c1"]) =
      "Clusters concepts: " ++
        ", ".intercalate (collectLabels s5C5 [RNode.onto "c0", RNode.onto "c1"]) :=
  ⟨by decide, claimC5_amended_comment_first_three s5C5
    [RNode.onto "c0", RNode.onto "c1"] (by decide)⟩

set_option maxRecDepth 1000000 in
/-- Counterexample to claim C5 as stated: a single batch of five concepts
labelled `Alpha … Echo`.  The stored comment lists only the first three
member labels and carries no "(and 2 more)" suffix, while the claimed
comment would list all five. -/
theorem claimC5_counterexample :
    objectsOf (genTopics s5C5) (RNode.onto "topic_0") rdfsComment =
        [RNode.lit "Clusters concepts: Alpha, Bravo, Charlie"] ∧
    specTopicComment ["Alpha", "Bravo", "Charlie", "Delta", "Echo"] =
        "Clusters concepts: Alpha, Bravo, Charlie, Delta, Echo" ∧
    (RNode.onto "topic_0", rdfsComment,
        RNode.lit (specTopicComment ["Alpha", "Bravo", "Charlie", "Delta", "Echo"])) ∉
      genTopics s5C5 := by decide


/-! ## Claim C9 — the sanitized-key alphabet -/

theorem collapseWsAux_chars (b : Bool) (l : List Char)
    (h : ∀ c ∈ l, keptBySanitize c = true) :
    ∀ c ∈ collapseWsAux b l, (isWordChar c || c == '-') = true := by
  induction l generalizing b with
  | nil => intro c hc; cases hc
  | cons a rest ih =>
    have ha := h a (List.mem_cons_self a rest)
    have hrest : ∀ c ∈ rest, keptBySanitize c = true :=
      fun c hc => h c (List.mem_cons_of_mem a hc)
    intro c hc
    by_cases hws : a.isWhitespace
    · rcases b with _ | _
      · simp only [collapseWsAux, hws, if_pos, if_neg] at hc
        rcases List.mem_cons.mp hc with rfl | hc2
        · rfl
        · exact ih true hrest c hc2
      · simp only [collapseWsAux, hws, if_pos] at hc
        exact ih true hrest c hc
    · simp only [collapseWsAux, hws, if_neg, Bool.false_eq_true, ite_false] at hc
      rcases List.mem_cons.mp hc with rfl | hc2
      · unfold keptBySanitize at ha
        rcases Bool.or_eq_true_iff.mp ha with h1 | h2
        · rcases Bool.or_eq_true_iff.mp h1 with h3 | h4
          · simp [h3]
          · simp [hws] at h4
        · simp [h2]
      · exact ih false hrest c hc2

/-- Claim C9, amended: the sanitized key keeps word characters, whitespace
and hyphens and turns each whitespace run into an underscore, so every
character of the output is a word character (underscore included) or a
hyphen — but not necessarily a word character or underscore, since hyphens
survive. -/
theorem claimC9_sanitizer_alphabet :
    ∀ s : String,
      ((sanitizeUri s).data.all (fun c => isWordChar c || c == '-')) = true := by
  intro s
  apply List.all_eq_true.mpr
  intro c hc
  exact collapseWsAux_chars false (s.data.filter keptBySanitize)
    (fun x hx => List.of_mem_filter hx) c hc

/-- Counterexample to claim C9 as stated: hyphens are not stripped.
`_sanitize_uri("a-b")` is `"a-b"`, which differs from the spec's procedure
(strip all non-word characters) and contains a character that is neither a
word character nor an underscore. -/
theorem claimC9_counterexample :
    sanitizeUri "a-b" = "a-b" ∧ sanitizeSpec "a-b" = "ab" ∧
    sanitizeUri "a-b" ≠ sanitizeSpec "a-b" ∧
    (("a-b").data.all (fun c => isWordChar c || c == '_')) = false ∧
    ((sanitizeUri "a-b").data.all (fun c => isWordChar c || c == '_')) = false := by
  decide

/-! ## Claim C8 — export guard, header, and path resolution -/

theorem data_append (a b : String) : (a ++ b).data = a.data ++ b.data := by
  cases a
  cases b
  rfl

theorem isPrefix_hash (x : List Char) :
    List.isPrefixOf "#".data
      ("# Knowledge Graph Export\n# Generated: ".data ++ x) = true := by
  have h : "# Knowledge Graph Export\n# Generated: ".data =
      '#' :: "# Knowledge Graph Export\n# Generated: ".data.tail := by decide
  rw [h, List.cons_append]
  simp [List.isPrefixOf]

theorem ttlHeader_starts_hash (s : Store) (now ser : String) :
    pyStartsWith (ttlHeader s now ++ ser) "#" = true := by
  unfold pyStartsWith ttlHeader
  simp only [data_append, List.append_assoc]
  exact isPrefix_hash _

theorem resolveExportPath_ne_empty (f : String) : resolveExportPath f ≠ "" := by
  unfold resolveExportPath
  split
  · rename_i h
    intro hf
    subst hf
    revert h
    decide
  · intro hf
    have := congrArg String.data hf
    rw [data_append] at this
    simp at this

/-- Claim C8: export on an uninitialized store returns `""` and writes
nothing; on an initialized store it returns a non-empty path, writes the
`#`-commented header followed by the serialized body at that path, and the
path is the name itself when absolute or when it textually starts with the
`data` root, otherwise the name resolved under the graphs cache
directory. -/
theorem claimC8_export_guard_and_paths :
    (∀ (filename : Option String) (now ser : String),
      exportGraphTTL none filename now ser = ("", none)) ∧
    (∀ (s : Store) (filename : Option String) (now ser : String),
      (exportGraphTTL (some s) filename now ser).1 =
          resolveExportPath (filename.getD "knowledge_graph.ttl") ∧
      (exportGraphTTL (some s) filename now ser).1 ≠ "" ∧
      (exportGraphTTL (some s) filename now ser).2 =
          some ((exportGraphTTL (some s) filename now ser).1,
            ttlHeader s now ++ ser) ∧
      pyStartsWith (ttlHeader s now ++ ser) "#" = true) ∧
    (∀ f : String, isAbsPath f = true ∨ pyStartsWith f "data" = true →
      resolveExportPath f = f) ∧
    (∀ f : String, isAbsPath f = false → pyStartsWith f "data" = false →
      resolveExportPath f = graphsCacheDir ++ "/" ++ f) := by
  refine ⟨fun filename now ser => rfl, fun s filename now ser => ?_, ?_, ?_⟩
  · exact ⟨rfl, resolveExportPath_ne_empty _, rfl, ttlHeader_starts_hash s now ser⟩
  · intro f h
    unfold resolveExportPath
    rw [if_pos]
    rcases h with h | h
    · exact Or.inl h
    · exact Or.inr h
  · intro f h1 h2
    unfold resolveExportPath
    rw [if_neg]
    simp [h1, h2]

/-- Witness for `claimC8_export_guard_and_paths` at concrete inputs. -/
theorem claimC8_witness :
    exportGraphTTL none (some "g.ttl") "2026-10-12" "body" = ("", none) ∧
    (exportGraphTTL (some [(RNode.ns "A", rdfType, RNode.onto "Document")])
        (some "g.ttl") "2026-10-12" "body").1 ≠ "" ∧
    resolveExportPath "/tmp/x.ttl" = "/tmp/x.ttl" ∧
    resolveExportPath "data/x.ttl" = "data/x.ttl" ∧
    resolveExportPath "g.ttl" = "data/graphs" ++ "/" ++ "g.ttl" :=
  ⟨claimC8_export_guard_and_paths.1 (some "g.ttl") "2026-10-12" "body",
   (claimC8_export_guard_and_paths.2.1 [(RNode.ns "A", rdfType, RNode.onto "Document")]
      (some "g.ttl") "2026-10-12" "body").2.1,
   claimC8_export_guard_and_paths.2.2.1 "/tmp/x.ttl" (Or.inl (by decide)),
   claimC8_export_guard_and_paths.2.2.1 "data/x.ttl" (Or.inr (by decide)),
   claimC8_export_guard_and_paths.2.2.2 "g.ttl" (by decide) (by decide)⟩

/-! ## Claim C7 — fail-soft query surface -/

/-- Claim C7: for every query string the query operation returns a plain
list of rows; on any backend parse/execution failure it returns the empty
list instead of propagating the exception; on success it returns one output
row per backend row, and when the backend binds only literals and URIs
(the only node kinds this engine ever stores) every cell is a plain
string. -/
theorem claimC7_query_fail_soft :
    ∀ (backend : String → Except String (List (List (String × RValue))))
      (q : String),
      (∀ e, backend q = .error e → querySparql backend q = []) ∧
      (∀ rows, backend q = .ok rows →
        (querySparql backend q).length = rows.length ∧
        querySparql backend q =
          rows.map (fun row => row.map (fun p => (p.1, convertValue p.2))) ∧
        ((∀ row ∈ rows, ∀ p ∈ row,
            (∃ v, p.2 = RValue.lit v) ∨ (∃ v, p.2 = RValue.uri v)) →
          ∀ row ∈ querySparql backend q, ∀ p ∈ row, ∃ v, p.2 = OutVal.str v)) := by
  intro backend q
  constructor
  · intro e he
    unfold querySparql
    rw [he]
  · intro rows hrows
    have hq : querySparql backend q =
        rows.map (fun row => row.map (fun p => (p.1, convertValue p.2))) := by
      unfold querySparql
      rw [hrows]
    refine ⟨by rw [hq, List.length_map], hq, ?_⟩
    intro hvals row hrow p hp
    rw [hq] at hrow
    obtain ⟨row0, hrow0, rfl⟩ := List.mem_map.mp hrow
    obtain ⟨p0, hp0, rfl⟩ := List.mem_map.mp hp
    rcases hvals row0 hrow0 p0 hp0 with ⟨v, hv⟩ | ⟨v, hv⟩ <;>
      exact ⟨v, by rw [hv]; rfl⟩

/-- Witness for `claimC7_query_fail_soft` with a concrete backend: the
malformed query yields `[]`, the well-formed one yields a single
all-strings row. -/
theorem claimC7_witness :
    querySparql demoBackend "not a valid query" = [] ∧
    (querySparql demoBackend "SELECT ?s").length = 1 :=
  ⟨(claimC7_query_fail_soft demoBackend "not a valid query").1 "parse error"
      (by unfold demoBackend; rw [if_pos rfl]),
   (((claimC7_query_fail_soft demoBackend "SELECT ?s").2
      [[("s", RValue.uri "http://pkm.local/sources/A"), ("n", RValue.lit "1")]]
      (by unfold demoBackend; rw [if_neg (by decide)])).1).trans (by decide)⟩

/-! ## Claim C10 — node identity keyed by sanitized title -/

theorem uncond_mem_runAct {t : Triple} :
    ∀ (acts : List GAction) (s : Store), GAction.uncond t ∈ acts →
      t ∈ runAct s acts := by
  intro acts
  induction acts with
  | nil => intro s h; cases h
  | cons a rest ih =>
    intro s h
    rcases List.mem_cons.mp h with rfl | hr
    · exact mem_runAct rest (Store.self_mem_addT s t)
    · cases a with
      | uncond u => exact ih _ hr
      | concept k l => exact ih _ hr

theorem docActions_head_mem (d : Document) :
    GAction.uncond (docUri d, rdfType, RNode.onto "Document") ∈ docActions d := by
  unfold docActions
  simp

/-- Claim C10: document and chunk node identity is keyed by the sanitized
title, not the path — two distinct documents with title keys that sanitize
alike receive the same Document URI and the same chunk URIs, and a fresh
chunked build holds exactly one Document type triple for that shared URI. -/
theorem claimC10_identity_by_sanitized_title :
    ∀ d1 d2 : Document, sanitizeUri d1.title = sanitizeUri d2.title →
      docUri d1 = docUri d2 ∧
      (∀ i : Nat, chunkUri d1 i = chunkUri d2 i) ∧
      (∀ docs : List Document, d1 ∈ docs →
        countOcc (buildKG docs true false [])
          (docUri d1, rdfType, RNode.onto "Document") = 1) := by
  intro d1 d2 h
  refine ⟨by unfold docUri; rw [h], fun i => by unfold chunkUri; rw [h], ?_⟩
  intro docs hd1
  have hmem : (docUri d1, rdfType, RNode.onto "Document") ∈
      buildKG docs true false [] := by
    rw [buildKG_noTopics]
    apply uncond_mem_runAct
    unfold buildActs
    apply List.mem_append_left
    apply List.mem_flatMap.mpr
    exact ⟨d1, hd1, by simp [docActions_head_mem d1]⟩
  have hnd : (buildKG docs true false []).Nodup := by
    rw [buildKG_noTopics]
    exact runAct_nodup _ List.nodup_nil
  exact countOcc_eq_one hnd hmem

set_option maxRecDepth 1000000 in
/-- Witness for `claimC10_identity_by_sanitized_title`: `docA` (title
`A  B`) and `docB` (title `A B`) share the key `A_B`, merge into one
Document node, and share chunk URIs. -/
theorem claimC10_witness :
    sanitizeUri (Document.title docA) = sanitizeUri (Document.title docB) ∧
    docUri docA = docUri docB ∧
    chunkUri docA 0 = chunkUri docB 0 ∧
    countOcc (buildKG [docA, docB] true false [])
      (docUri docA, rdfType, RNode.onto "Document") = 1 :=
  ⟨by decide,
   (claimC10_identity_by_sanitized_title docA docB (by decide)).1,
   (claimC10_identity_by_sanitized_title docA docB (by decide)).2.1 0,
   (claimC10_identity_by_sanitized_title docA docB (by decide)).2.2 [docA, docB]
     (by decide)⟩


/-! ## Claim C6 — wikilink targets, aliases, and the secondary graph -/

theorem takeWhile_append_all (p : Char → Bool) (m rest : List Char)
    (h : ∀ c ∈ m, p c = true) :
    (m ++ rest).takeWhile p = m ++ rest.takeWhile p := by
  induction m with
  | nil => simp
  | cons c t ih =>
    have hc := h c (List.mem_cons_self c t)
    simp only [List.cons_append, List.takeWhile_cons, hc, ite_true]
    rw [ih (fun x hx => h x (List.mem_cons_of_mem c hx))]

theorem dropWhile_append_all (p : Char → Bool) (m rest : List Char)
    (h : ∀ c ∈ m, p c = true) :
    (m ++ rest).dropWhile p = rest.dropWhile p := by
  induction m with
  | nil => simp
  | cons c t ih =>
    have hc := h c (List.mem_cons_self c t)
    simp only [List.cons_append, List.dropWhile_cons, hc, ite_true]
    exact ih (fun x hx => h x (List.mem_cons_of_mem c hx))

/-- The scan on a character list that is exactly one well-formed wikilink:
the body is the single match. -/
theorem findWL_single (m : List Char) (hm : m ≠ [])
    (hnb : ∀ c ∈ m, (c != ']') = true) :
    findWL ('[' :: '[' :: (m ++ [']', ']'])) = [m] := by
  have htw : (m ++ [']', ']']).takeWhile (fun c => c != ']') = m := by
    rw [takeWhile_append_all _ _ _ hnb]
    simp [List.takeWhile_cons]
  have hdw : (m ++ [']', ']']).dropWhile (fun c => c != ']') = [']', ']'] := by
    rw [dropWhile_append_all _ _ _ hnb]
    simp [List.dropWhile_cons]
  have hne : m.isEmpty = false := by
    cases m with
    | nil => exact absurd rfl hm
    | cons a t => rfl
  unfold findWL
  simp only [List.length_cons]
  rw [findWLF]
  simp only [htw, hdw, hne, Bool.false_eq_true, ite_false]
  rw [findWLF]

/-- Claim C6: a document whose content is the wikilink `[[t|a]]` emits a
`linksTo` triple to the sanitized key of `t` — never to the key of `a` when
the two keys differ — for every loaded document set, while the secondary
NetworkX edge appears exactly when some loaded document's title equals `t`
(case-sensitive string equality). -/
theorem claimC6_wikilink_alias_handling :
    ∀ (d : Document) (docs : List Document) (t a : String),
      d.content = "[[" ++ t ++ "|" ++ a ++ "]]" →
      (∀ c ∈ t.data, c ≠ ']') → (∀ c ∈ t.data, c ≠ '|') →
      (∀ c ∈ a.data, c ≠ ']') →
      linksToTriples d =
          [(docUri d, RNode.onto "linksTo", RNode.ns (sanitizeUri t))] ∧
      (sanitizeUri a ≠ sanitizeUri t →
        ∀ tr ∈ linksToTriples d, tr.2.2 ≠ RNode.ns (sanitizeUri a)) ∧
      nxEdgesOf d docs =
          (if t ∈ docs.map Document.title then [(d.title, t)] else []) := by
  intro d docs t a hcontent ht1 ht2 ha1
  have hshape : d.content.data =
      '[' :: '[' :: ((t.data ++ '|' :: a.data) ++ [']', ']']) := by
    rw [hcontent]
    simp [data_append]
  have hmne : (t.data ++ '|' :: a.data) ≠ [] := by
    intro h
    have := congrArg List.length h
    simp at this
  have hmnb : ∀ c ∈ t.data ++ '|' :: a.data, (c != ']') = true := by
    intro c hc
    rcases List.mem_append.mp hc with hc | hc
    · simp [ht1 c hc]
    · rcases List.mem_cons.mp hc with rfl | hc2
      · decide
      · simp [ha1 c hc2]
  have hwl : wikilinksOf d.content = [⟨t.data ++ '|' :: a.data⟩] := by
    unfold wikilinksOf
    rw [hshape, findWL_single _ hmne hmnb]
    rfl
  have hbp : beforePipe ⟨t.data ++ '|' :: a.data⟩ = t := by
    have h1 : (t.data ++ '|' :: a.data).takeWhile (fun c => c != '|') = t.data := by
      rw [takeWhile_append_all _ _ _ (fun c hc => by simp [ht2 c hc])]
      simp [List.takeWhile_cons]
    show (⟨(t.data ++ '|' :: a.data).takeWhile (fun c => c != '|')⟩ : String) = t
    rw [h1]
  have hlinks : linksToTriples d =
      [(docUri d, RNode.onto "linksTo", RNode.ns (sanitizeUri t))] := by
    unfold linksToTriples
    rw [hwl, List.map_cons, List.map_nil, hbp]
  refine ⟨hlinks, ?_, ?_⟩
  · intro hne tr htr
    rw [hlinks] at htr
    rcases List.mem_cons.mp htr with rfl | h
    · intro h
      simp only [RNode.ns.injEq] at h
      exact hne h.symm
    · cases h
  · by_cases hmem : t ∈ docs.map Document.title
    · rw [if_pos hmem]
      unfold nxEdgesOf
      rw [hwl]
      simp only [List.filterMap_cons, List.filterMap_nil, hbp]
      rw [if_pos hmem]
    · rw [if_neg hmem]
      unfold nxEdgesOf
      rw [hwl]
      simp only [List.filterMap_cons, List.filterMap_nil, hbp]
      rw [if_neg hmem]

set_option maxRecDepth 1000000 in
/-- Witness for `claimC6_wikilink_alias_handling`: the document
`[[Target|Alias]]` against a loaded set whose only title is `target`.  The
`linksTo` triple goes to the key of `Target`, not `Alias`, and the
case-mismatched title produces no NetworkX edge. -/
theorem claimC6_witness :
    linksToTriples wikiDoc =
        [(docUri wikiDoc, RNode.onto "linksTo", RNode.ns (sanitizeUri "Target"))] ∧
    (∀ tr ∈ linksToTriples wikiDoc, tr.2.2 ≠ RNode.ns (sanitizeUri "Alias")) ∧
    nxEdgesOf wikiDoc [lowerTargetDoc] = [] :=
  ⟨(claimC6_wikilink_alias_handling wikiDoc [lowerTargetDoc] "Target" "Alias"
      (by decide) (by decide) (by decide) (by decide)).1,
   (claimC6_wikilink_alias_handling wikiDoc [lowerTargetDoc] "Target" "Alias"
      (by decide) (by decide) (by decide) (by decide)).2.1 (by decide),
   ((claimC6_wikilink_alias_handling wikiDoc [lowerTargetDoc] "Target" "Alias"
      (by decide) (by decide) (by decide) (by decide)).2.2).trans (by decide)⟩


/-! ## Claim C2 — concept identity and canonical label -/

theorem prefLabels_addT_of_not {key : String} {s : Store} {t : Triple}
    (h : ¬ (t.1 = RNode.onto key ∧ t.2.1 = skosPrefLabel)) :
    prefLabels key (s.addT t) = prefLabels key s := by
  unfold Store.addT
  split
  · rfl
  · unfold prefLabels objectsOf
    rw [List.filterMap_append]
    simp [h]

theorem prefLabels_addT_self {key l : String} {s : Store}
    (h : prefLabels key s = []) :
    prefLabels key (s.addT (RNode.onto key, skosPrefLabel, RNode.lit l)) =
      [RNode.lit l] := by
  have hnot : (RNode.onto key, skosPrefLabel, RNode.lit l) ∉ s := by
    intro hm
    have hx : RNode.lit l ∈ prefLabels key s :=
      List.mem_filterMap.mpr ⟨_, hm, by simp⟩
    rw [h] at hx
    cases hx
  unfold Store.addT
  rw [if_neg hnot]
  unfold prefLabels objectsOf
  rw [List.filterMap_append]
  unfold prefLabels objectsOf at h
  rw [h]
  simp

theorem rdfType_ne_skosPrefLabel : rdfType ≠ skosPrefLabel := by decide

/-- Once the DomainConcept type triple and a sole canonical label are in the
store, later mutations that do not touch the key preserve both. -/
theorem runAct_keeps_key (key : String) (L : RNode) :
    ∀ (acts : List GAction) (s : Store),
      (∀ t, GAction.uncond t ∈ acts → ¬ touchesKey key t) →
      typeTriple key ∈ s → prefLabels key s = [L] →
      typeTriple key ∈ runAct s acts ∧ prefLabels key (runAct s acts) = [L] := by
  intro acts
  induction acts with
  | nil => exact fun s _ h1 h2 => ⟨h1, h2⟩
  | cons a rest ih =>
    intro s hOK h1 h2
    have hOKr : ∀ t, GAction.uncond t ∈ rest → ¬ touchesKey key t :=
      fun t ht => hOK t (List.mem_cons_of_mem a ht)
    cases a with
    | uncond t =>
      have hnt := hOK t (List.mem_cons_self _ _)
      have hpre : ¬ (t.1 = RNode.onto key ∧ t.2.1 = skosPrefLabel) :=
        fun hc => hnt ⟨hc.1, Or.inr hc.2⟩
      exact ih (s.addT t) hOKr (Store.mem_addT_of_mem h1)
        (by rw [prefLabels_addT_of_not hpre]; exact h2)
    | concept k l =>
      show typeTriple key ∈ runAct (conceptStep s k l) rest ∧
        prefLabels key (runAct (conceptStep s k l) rest) = [L]
      by_cases hk : k = key
      · subst hk
        rw [conceptStep_of_type_mem
          (show (RNode.onto k, rdfType, RNode.onto "DomainConcept") ∈ s from h1)]
        exact ih s hOKr h1 h2
      · have hstep : typeTriple key ∈ conceptStep s k l ∧
            prefLabels key (conceptStep s k l) = [L] := by
          unfold conceptStep
          split
          · exact ⟨h1, h2⟩
          · refine ⟨Store.mem_addT_of_mem (Store.mem_addT_of_mem h1), ?_⟩
            rw [prefLabels_addT_of_not (fun hc => hk (RNode.onto.inj hc.1)),
              prefLabels_addT_of_not (fun hc => hk (RNode.onto.inj hc.1))]
            exact h2
        exact ih _ hOKr hstep.1 hstep.2

/-- Before the key has been seen, the first guarded insertion for it fixes
the type triple and the canonical label, and the rest of the run preserves
them. -/
theorem runAct_first_label (key : String) :
    ∀ (acts : List GAction) (s : Store),
      (∀ t, GAction.uncond t ∈ acts → ¬ touchesKey key t) →
      typeTriple key ∉ s → prefLabels key s = [] →
      ∀ (L : String) (rest2 : List String),
        actLabelsFor key acts = L :: rest2 →
        typeTriple key ∈ runAct s acts ∧
        prefLabels key (runAct s acts) = [RNode.lit L] := by
  intro acts
  induction acts with
  | nil =>
    intro s _ _ _ L rest2 hfirst
    exact absurd hfirst (by simp [actLabelsFor])
  | cons a rest ih =>
    intro s hOK hτ hpl L rest2 hfirst
    have hOKr : ∀ t, GAction.uncond t ∈ rest → ¬ touchesKey key t :=
      fun t ht => hOK t (List.mem_cons_of_mem a ht)
    cases a with
    | uncond t =>
      have hnt := hOK t (List.mem_cons_self _ _)
      have hpre : ¬ (t.1 = RNode.onto key ∧ t.2.1 = skosPrefLabel) :=
        fun hc => hnt ⟨hc.1, Or.inr hc.2⟩
      have hτ2 : typeTriple key ∉ s.addT t := by
        intro hm
        rcases Store.mem_addT.mp hm with h | h
        · exact hτ h
        · exact hnt (h ▸ ⟨rfl, Or.inl ⟨rfl, rfl⟩⟩)
      have hfirst2 : actLabelsFor key rest = L :: rest2 := by
        simpa [actLabelsFor, List.filterMap_cons] using hfirst
      exact ih (s.addT t) hOKr hτ2
        (by rw [prefLabels_addT_of_not hpre]; exact hpl) L rest2 hfirst2
    | concept k l =>
      by_cases hk : k = key
      · subst hk
        have hcons : l :: actLabelsFor k rest = L :: rest2 := by
          simpa [actLabelsFor, List.filterMap_cons] using hfirst
        have hLl : l = L := (List.cons_eq_cons.mp hcons).1
        subst hLl
        show typeTriple k ∈ runAct (conceptStep s k l) rest ∧
          prefLabels k (runAct (conceptStep s k l) rest) = [RNode.lit l]
        have hstep : conceptStep s k l =
            (s.addT (typeTriple k)).addT
              (RNode.onto k, skosPrefLabel, RNode.lit l) := by
          unfold conceptStep
          rw [if_neg
            (show (RNode.onto k, rdfType, RNode.onto "DomainConcept") ∉ s from hτ)]
          rfl
        rw [hstep]
        refine runAct_keeps_key k (RNode.lit l) rest _ hOKr
          (Store.mem_addT_of_mem (Store.self_mem_addT ..)) ?_
        apply prefLabels_addT_self
        rw [prefLabels_addT_of_not (fun hc => rdfType_ne_skosPrefLabel hc.2)]
        exact hpl
      · have hfirst2 : actLabelsFor key rest = L :: rest2 := by
          simpa [actLabelsFor, List.filterMap_cons, hk] using hfirst
        show typeTriple key ∈ runAct (conceptStep s k l) rest ∧
          prefLabels key (runAct (conceptStep s k l) rest) = [RNode.lit L]
        by_cases hg : (RNode.onto k, rdfType, RNode.onto "DomainConcept") ∈ s
        · rw [conceptStep_of_type_mem hg]
          exact ih s hOKr hτ hpl L rest2 hfirst2
        · have hstep : conceptStep s k l =
              (s.addT (RNode.onto k, rdfType, RNode.onto "DomainConcept")).addT
                (RNode.onto k, skosPrefLabel, RNode.lit l) := by
            unfold conceptStep
            rw [if_neg hg]
          rw [hstep]
          refine ih _ hOKr ?_ ?_ L rest2 hfirst2
          · intro hm
            rcases Store.mem_addT.mp hm with hm | hm
            · rcases Store.mem_addT.mp hm with hm | hm
              · exact hτ hm
              · exact hk (RNode.onto.inj (congrArg Prod.fst hm)).symm
            · exact rdfType_ne_skosPrefLabel (congrArg (fun tr => tr.2.1) hm)
          · rw [prefLabels_addT_of_not (fun hc => hk (RNode.onto.inj hc.1)),
              prefLabels_addT_of_not (fun hc => hk (RNode.onto.inj hc.1))]
            exact hpl


theorem not_touches_of_ns (key : String) {t : Triple} (x : String)
    (h : t.1 = RNode.ns x) : ¬ touchesKey key t := by
  rintro ⟨h1, -⟩
  rw [h] at h1
  cases h1

theorem rdfsLabel_not_touching (key k2 : String) {o : RNode} :
    ¬ touchesKey key (RNode.onto k2, rdfsLabel, o) := by
  rintro ⟨-, h | h⟩
  · exact absurd (show rdfsLabel = rdfType from h.1) (by decide)
  · exact absurd (show rdfsLabel = skosPrefLabel from h) (by decide)

theorem tagTriples_ok (d : Document) (key : String) :
    ∀ t ∈ tagTriples d, ¬ touchesKey key t := by
  intro t ht
  unfold tagTriples at ht
  obtain ⟨tag, -, hmem⟩ := List.mem_flatMap.mp ht
  rcases List.mem_cons.mp hmem with rfl | hmem
  · exact not_touches_of_ns key (sanitizeUri d.title) rfl
  rcases List.mem_cons.mp hmem with rfl | hmem
  · rintro ⟨-, h | h⟩
    · exact absurd (show RNode.onto "Tag" = RNode.onto "DomainConcept" from h.2)
        (by decide)
    · exact absurd (show rdfType = skosPrefLabel from h) (by decide)
  rcases List.mem_cons.mp hmem with rfl | hmem
  · exact rdfsLabel_not_touching key (sanitizeUri tag)
  · cases hmem

theorem fmMetaTriples_subj (d : Document) :
    ∀ t ∈ fmMetaTriples d, t.1 = docUri d := by
  intro t ht
  unfold fmMetaTriples at ht
  rcases List.mem_append.mp ht with ht | ht
  · rcases List.mem_append.mp ht with ht | ht
    · split at ht
      · rcases List.mem_cons.mp ht with rfl | h
        · rfl
        · cases h
      · cases ht
    · split at ht
      · rcases List.mem_cons.mp ht with rfl | h
        · rfl
        · cases h
      · cases ht
  · split at ht
    · rcases List.mem_cons.mp ht with rfl | h
      · rfl
      · cases h
    · cases ht

theorem docActions_ok (d : Document) (key : String) :
    ∀ t, GAction.uncond t ∈ docActions d → ¬ touchesKey key t := by
  intro t ht
  unfold docActions at ht
  rcases List.mem_append.mp ht with ht4 | htSec
  · rcases List.mem_append.mp ht4 with ht3 | htChunk
    · rcases List.mem_append.mp ht3 with ht2 | htTag
      · rcases List.mem_append.mp ht2 with htHead | htMeta
        · -- the four leading metadata triples, all with the document subject
          simp only [List.mem_cons, List.not_mem_nil, or_false,
            GAction.uncond.injEq] at htHead
          rcases htHead with rfl | rfl | rfl | rfl <;>
            exact not_touches_of_ns key (sanitizeUri d.title) rfl
        · obtain ⟨tr, htr, heq⟩ := List.mem_map.mp htMeta
          obtain rfl : tr = t := GAction.uncond.inj heq
          exact not_touches_of_ns key (sanitizeUri d.title)
            (by rw [fmMetaTriples_subj d tr htr]; rfl)
      · obtain ⟨tr, htr, heq⟩ := List.mem_map.mp htTag
        obtain rfl : tr = t := GAction.uncond.inj heq
        exact tagTriples_ok d key tr htr
    · obtain ⟨p, -, hmem⟩ := List.mem_flatMap.mp htChunk
      rcases List.mem_append.mp hmem with hmem | hmem
      · simp only [List.mem_cons, List.not_mem_nil, or_false,
          GAction.uncond.injEq] at hmem
        rcases hmem with rfl | rfl | rfl | rfl <;>
          exact not_touches_of_ns key _ rfl
      · obtain ⟨label, -, hmem2⟩ := List.mem_flatMap.mp hmem
        rcases List.mem_cons.mp hmem2 with heq | hmem2
        · cases heq
        rcases List.mem_cons.mp hmem2 with heq | hmem2
        · obtain rfl : t = _ := GAction.uncond.inj heq
          exact not_touches_of_ns key _ rfl
        · cases hmem2
  · obtain ⟨sec, -, hmem⟩ := List.mem_flatMap.mp htSec
    split at hmem
    · rcases List.mem_cons.mp hmem with heq | hmem
      · cases heq
      rcases List.mem_cons.mp hmem with heq | hmem
      · obtain rfl : t = _ := GAction.uncond.inj heq
        exact not_touches_of_ns key _ rfl
      · cases hmem
    · cases hmem

theorem docActionsLegacy_ok (d : Document) (key : String) :
    ∀ t, GAction.uncond t ∈ docActionsLegacy d → ¬ touchesKey key t := by
  intro t ht
  unfold docActionsLegacy at ht
  rcases List.mem_append.mp ht with ht2 | htSec
  · rcases List.mem_append.mp ht2 with htHead | htTag
    · simp only [List.mem_cons, List.not_mem_nil, or_false,
        GAction.uncond.injEq] at htHead
      rcases htHead with rfl | rfl | rfl <;>
        exact not_touches_of_ns key (sanitizeUri d.title) rfl
    · obtain ⟨tr, htr, heq⟩ := List.mem_map.mp htTag
      obtain rfl : tr = t := GAction.uncond.inj heq
      exact tagTriples_ok d key tr htr
  · obtain ⟨sec, -, hmem⟩ := List.mem_flatMap.mp htSec
    split at hmem
    · rcases List.mem_cons.mp hmem with heq | hmem
      · obtain rfl : t = _ := GAction.uncond.inj heq
        exact not_touches_of_ns key _ rfl
      rcases List.mem_cons.mp hmem with heq | hmem
      · obtain rfl : t = _ := GAction.uncond.inj heq
        rintro ⟨-, h | h⟩
        · exact absurd
            (show RNode.onto "Concept" = RNode.onto "DomainConcept" from h.2)
            (by decide)
        · exact absurd (show rdfType = skosPrefLabel from h) (by decide)
      rcases List.mem_cons.mp hmem with heq | hmem
      · obtain rfl : t = _ := GAction.uncond.inj heq
        exact rdfsLabel_not_touching key (sanitizeUri sec.1)
      · cases hmem
    · cases hmem

theorem relActions_ok (d : Document) (key : String) :
    ∀ t, GAction.uncond t ∈ relActions d → ¬ touchesKey key t := by
  intro t ht
  unfold relActions at ht
  obtain ⟨tr, htr, heq⟩ := List.mem_map.mp ht
  obtain rfl : tr = t := GAction.uncond.inj heq
  unfold linksToTriples at htr
  obtain ⟨link, -, rfl⟩ := List.mem_map.mp htr
  exact not_touches_of_ns key _ rfl

theorem buildActs_ok (docs : List Document) (ch : Bool) (key : String) :
    ∀ t, GAction.uncond t ∈ buildActs docs ch → ¬ touchesKey key t := by
  intro t ht
  unfold buildActs at ht
  rcases List.mem_append.mp ht with ht | ht
  · obtain ⟨d, -, hmem⟩ := List.mem_flatMap.mp ht
    by_cases hch : ch = true
    · rw [hch] at hmem
      simp only [ite_true] at hmem
      exact docActions_ok d key t hmem
    · rw [Bool.not_eq_true] at hch
      rw [hch] at hmem
      simp only [Bool.false_eq_true, ite_false] at hmem
      exact docActionsLegacy_ok d key t hmem
  · obtain ⟨d, -, hmem⟩ := List.mem_flatMap.mp ht
    exact relActions_ok d key t hmem


theorem append_ext_trans {a b c : Store} (h1 : ∃ r, b = a ++ r)
    (h2 : ∃ r, c = b ++ r) : ∃ r, c = a ++ r := by
  obtain ⟨r1, rfl⟩ := h1
  obtain ⟨r2, rfl⟩ := h2
  exact ⟨r1 ++ r2, List.append_assoc a r1 r2⟩

theorem addT_append_ext (s : Store) (t : Triple) : ∃ r, s.addT t = s ++ r := by
  unfold Store.addT
  split
  · exact ⟨[], by simp⟩
  · exact ⟨[t], rfl⟩

theorem addT_ext_pres {s acc : Store} {t : Triple} (h : ∃ r, acc = s ++ r) :
    ∃ r, acc.addT t = s ++ r :=
  append_ext_trans h (addT_append_ext acc t)

theorem foldl_append_ext {β : Type} {f : Store → β → Store}
    (hstep : ∀ (acc : Store) (x : β), ∃ r, f acc x = acc ++ r) :
    ∀ (l : List β) (acc : Store), ∃ r, l.foldl f acc = acc ++ r := by
  intro l
  induction l with
  | nil => exact fun acc => ⟨[], by simp⟩
  | cons x rest ih =>
    intro acc
    obtain ⟨r1, h1⟩ := hstep acc x
    obtain ⟨r2, h2⟩ := ih (f acc x)
    exact ⟨r1 ++ r2, by rw [List.foldl_cons, h2, h1, List.append_assoc]⟩

/-- Topic generation only appends triples to the store. -/
theorem addTopicBatch_append_ext (s : Store) (i : Nat) (batch : List RNode) :
    ∃ r, addTopicBatch s i batch = s ++ r := by
  unfold addTopicBatch
  refine foldl_pres (P := fun st : Store => ∃ r, st = s ++ r)
    (fun acc c hacc => ?_) batch _ ?_
  · exact append_ext_trans hacc
      (foldl_append_ext (fun a ch => addT_append_ext a _) _ acc)
  · refine foldl_pres (P := fun st : Store => ∃ r, st = s ++ r)
      (fun acc c hacc => addT_ext_pres hacc) batch _ ?_
    exact addT_ext_pres (addT_ext_pres (addT_ext_pres (addT_ext_pres ⟨[], by simp⟩)))

theorem genTopics_append_ext (s : Store) : ∃ r, genTopics s = s ++ r := by
  rw [genTopics]
  split
  · exact ⟨[], by simp⟩
  · exact foldl_pres (P := fun st : Store => ∃ r, st = s ++ r)
      (fun acc (p : Nat × List RNode) hacc =>
        append_ext_trans hacc (addTopicBatch_append_ext acc p.1 p.2))
      _ _ ⟨[], by simp⟩

theorem prefLabels_append (key : String) (s1 s2 : Store) :
    prefLabels key (s1 ++ s2) = prefLabels key s1 ++ prefLabels key s2 := by
  unfold prefLabels objectsOf
  exact List.filterMap_append s1 s2 _

/-- Claim C2: for every DomainConcept key, a fresh build stores exactly one
DomainConcept type triple for that key, and the canonical label — the first
stored `prefLabel` — is the label of the first insertion for that key
(labels `L1, L2, …` with the same sanitized key never overwrite it). -/
theorem claimC2_concept_identity :
    ∀ (docs : List Document) (ch tp : Bool) (key L1 : String)
      (rest : List String),
      conceptLabelsFor key docs ch = L1 :: rest →
      countOcc (buildKG docs ch tp []) (typeTriple key) = 1 ∧
      (prefLabels key (buildKG docs ch tp [])).head? =
        some (RNode.lit L1) := by
  intro docs ch tp key L1 rest hfirst
  have hrun := runAct_first_label key (buildActs docs ch) []
    (buildActs_ok docs ch key) (by simp) rfl L1 rest hfirst
  unfold buildKG
  split
  · have hmem := mem_genTopics hrun.1
    have hnd : (genTopics (runAct [] (buildActs docs ch))).Nodup :=
      genTopics_nodup (runAct_nodup (buildActs docs ch) List.nodup_nil)
    obtain ⟨r, hr⟩ := genTopics_append_ext (runAct [] (buildActs docs ch))
    refine ⟨countOcc_eq_one hnd hmem, ?_⟩
    rw [hr, prefLabels_append, hrun.2]
    rfl
  · exact ⟨countOcc_eq_one (runAct_nodup (buildActs docs ch) List.nodup_nil) hrun.1,
      by rw [hrun.2]; rfl⟩

set_option maxRecDepth 1000000 in
/-- Witness for `claimC2_concept_identity`: the document inserting the
labels `Alpha  x` and then `Alpha x`, both sanitizing to `Alpha_x` — even
with the topic pass enabled, one node, and the first label wins. -/
theorem claimC2_witness :
    conceptLabelsFor "Alpha_x" [twoLabelDoc] true =
        ["Alpha  x", "Alpha x", "Alpha  x"] ∧
    countOcc (buildKG [twoLabelDoc] true true []) (typeTriple "Alpha_x") = 1 ∧
    (prefLabels "Alpha_x" (buildKG [twoLabelDoc] true true [])).head? =
      some (RNode.lit "Alpha  x") :=
  ⟨by decide,
   (claimC2_concept_identity [twoLabelDoc] true true "Alpha_x" "Alpha  x"
      ["Alpha x", "Alpha  x"] (by decide)).1,
   (claimC2_concept_identity [twoLabelDoc] true true "Alpha_x" "Alpha  x"
      ["Alpha x", "Alpha  x"] (by decide)).2⟩

end RagEngine
